import Mathlib

/-!
Verification of the termux-pastebin storage/crypto layer.

Shallow embedding of `src/security.py`, `src/database.py` and the paste
routes of `src/app.py`.  Bytes are modelled as `List Nat`; the external
AES-256-GCM primitive (from the `cryptography` library) is modelled as an
executable authenticated cipher with the same interface contract:
`encrypt key nonce pt = ciphertext ++ tag (16 bytes)`, decryption checks the
tag and fails on mismatch, and `decrypt key nonce (encrypt key nonce pt) = pt`.
The module-global encryption key of `security.py` (`_key`, an
`Option` of 32 bytes) is passed explicitly; the random nonce drawn by
`secrets.token_bytes(12)` at each encryption is passed as a stream
`nonces : Nat → Bytes` indexed by attempt.
-/

namespace Pastebin

/-- Byte strings, modelled as lists of naturals. -/
abbrev Bytes := List Nat

/-- Model of `str.encode("utf-8")`: the sequence of code points of the string
(an injective encoding into byte lists, inverted by `bytesStr`). -/
def strBytes (s : String) : Bytes := s.data.map Char.toNat

/-- Model of `bytes.decode("utf-8")`: returns `none` on invalid data
(the `UnicodeDecodeError` path of the source). -/
def bytesStr (bs : Bytes) : Option String :=
  if bs.all (fun n => decide (Nat.isValidChar n)) then
    some (String.mk (bs.map Char.ofNat))
  else none

/-- Model of `bytes.decode("utf-8", errors="ignore")`: invalid data is dropped. -/
def bytesStrLossy (bs : Bytes) : String :=
  String.mk ((bs.filter (fun n => decide (Nat.isValidChar n))).map Char.ofNat)

/-- Number of bytes of the UTF-8 encoding of one character. -/
def utf8CharSize (c : Char) : Nat :=
  if c.toNat < 0x80 then 1
  else if c.toNat < 0x800 then 2
  else if c.toNat < 0x10000 then 3
  else 4

/-- Number of bytes of the UTF-8 encoding of a string
(`len(content.encode("utf-8"))` in the source). -/
def utf8ByteSize (s : String) : Nat := (s.data.map utf8CharSize).sum

/-- `not content.strip()` in Python: true iff the string is empty or
consists only of whitespace. -/
def isBlank (s : String) : Bool := s.data.all Char.isWhitespace

/-! ## Model of the AES-GCM primitive (`cryptography.hazmat...AESGCM`) -/

/-- Keystream value derived from key and nonce. -/
def keyStream (key nonce : Bytes) : Nat :=
  key.sum + nonce.sum + 1

/-- Symbolic stream encryption of a plaintext under `key`/`nonce`. -/
def encBytes (key nonce : Bytes) (pt : Bytes) : Bytes :=
  pt.map (fun b => b + keyStream key nonce)

/-- Inverse of `encBytes`. -/
def decBytes (key nonce : Bytes) (ct : Bytes) : Bytes :=
  ct.map (fun b => b - keyStream key nonce)

/-- 16-byte authentication tag over key, nonce and ciphertext. -/
def macTag (key nonce ct : Bytes) : Bytes :=
  List.replicate 16 (key.sum + nonce.sum + ct.sum + ct.length)

/-- Model of `AESGCM(key).encrypt(nonce, pt, None)`: ciphertext followed by
the 16-byte authentication tag. -/
def aesgcmEncrypt (key nonce pt : Bytes) : Bytes :=
  encBytes key nonce pt ++ macTag key nonce (encBytes key nonce pt)

/-- Model of `AESGCM(key).decrypt(nonce, data, None)`: splits off the 16-byte
tag, checks it, and fails (`InvalidTag`) on mismatch or short input. -/
def aesgcmDecrypt (key nonce data : Bytes) : Option Bytes :=
  if data.length < 16 then none
  else
    let ct := data.take (data.length - 16)
    let tag := data.drop (data.length - 16)
    if tag = macTag key nonce ct then some (decBytes key nonce ct) else none

/-! ## `src/security.py` -/

/-- `security.encrypt_content`: fails when the key is unavailable, otherwise
returns `nonce (12 bytes) ++ ciphertext ++ tag (16 bytes)`. -/
def encrypt_content (keyOpt : Option Bytes) (nonce : Bytes) (content : String) :
    Option Bytes :=
  match keyOpt with
  | none => none
  | some key => some (nonce ++ aesgcmEncrypt key nonce (strBytes content))

/-- `security.decrypt_content`: fails when the key is unavailable or the blob
is shorter than the 12-byte nonce; splits the nonce off, performs
authenticated decryption and UTF-8 decoding, `none` on any failure. -/
def decrypt_content (keyOpt : Option Bytes) (data : Bytes) : Option String :=
  match keyOpt with
  | none => none
  | some key =>
    if data.length < 12 then none
    else
      match aesgcmDecrypt key (data.take 12) (data.drop 12) with
      | none => none
      | some ptBytes => bytesStr ptBytes

/-! ## Crypto round-trip lemmas -/

theorem decBytes_encBytes (key nonce pt : Bytes) :
    decBytes key nonce (encBytes key nonce pt) = pt := by
  unfold decBytes encBytes
  rw [List.map_map]
  have h : ((fun b => b - keyStream key nonce) ∘ fun b => b + keyStream key nonce)
      = id := by
    funext b
    simp
  rw [h, List.map_id]

theorem bytesStr_strBytes (s : String) : bytesStr (strBytes s) = some s := by
  unfold bytesStr strBytes
  have hall : (s.data.map Char.toNat).all (fun n => decide (Nat.isValidChar n)) = true := by
    rw [List.all_eq_true]
    intro n hn
    rcases List.mem_map.1 hn with ⟨c, _, hc⟩
    subst hc
    simpa using c.valid
  rw [if_pos hall, List.map_map]
  have h : (Char.ofNat ∘ Char.toNat) = id := by
    funext c
    simp [Function.comp, Char.ofNat_toNat]
  rw [h, List.map_id]

theorem aesgcmDecrypt_encrypt (key nonce pt : Bytes) :
    aesgcmDecrypt key nonce (aesgcmEncrypt key nonce pt) = some pt := by
  unfold aesgcmDecrypt aesgcmEncrypt
  have htag : (macTag key nonce (encBytes key nonce pt)).length = 16 := by
    simp [macTag]
  have hlen : (encBytes key nonce pt ++ macTag key nonce (encBytes key nonce pt)).length
      = (encBytes key nonce pt).length + 16 := by
    simp [htag]
  rw [if_neg (by omega)]
  have hsub : (encBytes key nonce pt ++ macTag key nonce (encBytes key nonce pt)).length - 16
      = (encBytes key nonce pt).length := by omega
  rw [hsub, List.take_left, List.drop_left, if_pos rfl, decBytes_encBytes]

theorem decrypt_encrypt_content (key nonce : Bytes) (content : String)
    (hn : nonce.length = 12) (blob : Bytes)
    (henc : encrypt_content (some key) nonce content = some blob) :
    decrypt_content (some key) blob = some content := by
  simp only [encrypt_content] at henc
  injection henc with henc
  subst henc
  simp only [decrypt_content]
  have hlen : (nonce ++ aesgcmEncrypt key nonce (strBytes content)).length
      = 12 + (aesgcmEncrypt key nonce (strBytes content)).length := by
    simp [hn]
  rw [if_neg (by omega)]
  rw [show (12 : Nat) = nonce.length from hn.symm, List.take_left, List.drop_left,
    aesgcmDecrypt_encrypt]
  exact bytesStr_strBytes content

/-! ## `src/database.py`: data model

A row of the `pastes` table.  The `content` column holds either the original
UTF-8 text (public pastes, stored as `TEXT`) or the encrypted blob (private
pastes, stored as `BLOB`); `StoredContent` keeps the runtime `str`/`bytes`
distinction the source inspects with `isinstance`. -/

inductive StoredContent where
  | plain (s : String)
  | blob (b : Bytes)
deriving DecidableEq, Repr

structure PasteRow where
  key : String
  content : StoredContent
  language : Option String
  user_id : Option Nat
  is_public : Bool
  createdAt : Nat
deriving DecidableEq, Repr

/-- The `pastes` table (the `key` column is the primary key; inserting a
duplicate key raises `IntegrityError`, see `addPasteFuel`). -/
abbrev PasteDB := List PasteRow

/-- `SELECT ... FROM pastes WHERE key = ?`. -/
def findPaste (db : PasteDB) (k : String) : Option PasteRow :=
  db.find? (fun r => r.key == k)

/-- The value bound to `content_to_save` in `add_paste`: the original text
for a public paste, the encrypted blob for a private one; `none` when
encryption fails (in which case `add_paste` aborts). -/
def contentToSave (keyOpt : Option Bytes) (nonce : Bytes) (content : String)
    (isPub : Bool) : Option StoredContent :=
  if isPub then some (.plain content)
  else (encrypt_content keyOpt nonce content).map .blob

/-- `database.add_paste`, with the recursion made explicit: `attempt` counts
the recursive calls (each one draws a fresh key `gen attempt` and a fresh
nonce `nonces attempt`), and `fuel` bounds the unrolling.  The result is
`none` when the recursion is still running after `fuel` attempts, and
`some (r, db)` when the source returns `r` leaving the table in state `db`.
The source itself has no attempt cap: it recurses on every
`IntegrityError` (key collision). -/
def addPasteFuel (keyOpt : Option Bytes) (nonces : Nat → Bytes)
    (gen : Nat → String) (content : String) (user_id : Option Nat)
    (language : Option String) (isPub : Bool) (now : Nat) (db : PasteDB) :
    Nat → Nat → Option (Option String × PasteDB)
  | _, 0 => none
  | attempt, fuel + 1 =>
    if isBlank content then some (none, db)
    else
      let paste_key := gen attempt
      match contentToSave keyOpt (nonces attempt) content isPub with
      | none => some (none, db)
      | some cts =>
        if (findPaste db paste_key).isSome then
          addPasteFuel keyOpt nonces gen content user_id language isPub now db
            (attempt + 1) fuel
        else
          some (some paste_key,
            ⟨paste_key, cts, language, user_id, isPub, now⟩ :: db)

/-- The sentinel markers the source embeds in returned content. -/
def decryptErrorMarker : String := "[Ошибка дешифрования]"
def formatErrorMarker : String := "[Ошибка формата хранения]"
def decodeErrorMarker : String := "[Ошибка декодирования]"

/-- The `final_content` computation of `get_paste`: private content is
decrypted (sentinel marker on failure), public content returned as stored
(UTF-8 decoded when it is unexpectedly bytes). -/
def pasteContentOf (keyOpt : Option Bytes) (row : PasteRow) : String :=
  if !row.is_public then
    match row.content with
    | .blob b =>
      match decrypt_content keyOpt b with
      | none => decryptErrorMarker
      | some s => s
    | .plain _ => formatErrorMarker
  else
    match row.content with
    | .blob b =>
      match bytesStr b with
      | none => decodeErrorMarker
      | some s => s
    | .plain s => s

/-- `database.get_paste`: looks the row up by key, decrypts private content
(degrading to a sentinel marker on failure), and returns
`(content, language, user_id, is_public)`. -/
def get_paste (keyOpt : Option Bytes) (db : PasteDB) (paste_key : String) :
    Option (String × Option String × Option Nat × Bool) :=
  if paste_key.isEmpty then none
  else
    match findPaste db paste_key with
    | none => none
    | some row =>
      some (pasteContentOf keyOpt row, row.language, row.user_id, row.is_public)

/-! ## `src/database.py`: user listing -/

/-- One entry of the list returned by `get_user_pastes` (the dict with the
`content` field replaced by the preview). -/
structure PastePreview where
  key : String
  content : String
  language : Option String
  is_public : Bool
  createdAt : Nat
deriving DecidableEq, Repr

/-- Preview computation for one row of the `get_user_pastes` loop. -/
def previewRow (keyOpt : Option Bytes) (previewLen : Nat) (row : PasteRow) :
    PastePreview :=
  let preview :=
    if row.is_public then
      match row.content with
      | .plain s => s.take previewLen
      | .blob b => (bytesStrLossy b).take previewLen
    else
      match row.content with
      | .blob b =>
        match decrypt_content keyOpt b with
        | some s => s.take previewLen
        | none => decryptErrorMarker
      | .plain _ => formatErrorMarker
  ⟨row.key, preview, row.language, row.is_public, row.createdAt⟩

/-- Insertion into a list kept sorted by `createdAt` descending (model of
`ORDER BY created_at DESC`). -/
def insertDesc (r : PasteRow) : List PasteRow → List PasteRow
  | [] => [r]
  | x :: xs =>
    if r.createdAt ≤ x.createdAt then x :: insertDesc r xs else r :: x :: xs

def sortDesc (l : List PasteRow) : List PasteRow :=
  l.foldr insertDesc []

/-- The SQL query of `get_user_pastes`:
`WHERE user_id = ? ORDER BY created_at DESC LIMIT ?`. -/
def queryUserPastes (db : PasteDB) (uid limit : Nat) : List PasteRow :=
  (sortDesc (db.filter (fun r => r.user_id == some uid))).take limit

/-- `database.get_user_pastes`: empty for a falsy user id, otherwise the
per-row preview loop over the query result (the loop appends one preview
per row and never aborts). -/
def get_user_pastes (keyOpt : Option Bytes) (db : PasteDB)
    (uid : Nat) (limit previewLen : Nat) : List PastePreview :=
  if uid = 0 then []
  else
    (queryUserPastes db uid limit).foldl
      (fun acc row => acc ++ [previewRow keyOpt previewLen row]) []

/-! ## `src/database.py`: user store -/

structure UserRow where
  id : Nat
  yandex_id : String
  login : Option String
  display_name : Option String
  email : Option String
  created_at : Nat
  last_login : Option Nat
deriving DecidableEq, Repr

/-- The `users` table together with its `AUTOINCREMENT` counter. -/
structure UsersDB where
  rows : List UserRow
  nextId : Nat
deriving DecidableEq, Repr

/-- The fields `get_or_create_user` reads from the Yandex profile dict
(`id`, `login`, `display_name`, `default_email`); a missing key is `none`. -/
structure YandexData where
  id : Option String
  login : Option String
  display_name : Option String
  default_email : Option String
deriving DecidableEq, Repr

/-- `database.get_or_create_user`: returns `none` for a missing/empty
external id; otherwise looks up by `yandex_id`, updating `last_login` on a
hit and inserting a fresh row on a miss.  `now` is the current time. -/
def get_or_create_user (udb : UsersDB) (now : Nat) (d : YandexData) :
    Option Nat × UsersDB :=
  match d.id with
  | none => (none, udb)
  | some yid =>
    if yid.isEmpty then (none, udb)
    else
      match udb.rows.find? (fun r => r.yandex_id == yid) with
      | some r =>
        (some r.id,
          { udb with
            rows := udb.rows.map (fun row =>
              if row.id == r.id then { row with last_login := some now }
              else row) })
      | none =>
        (some udb.nextId,
          { rows := udb.rows ++
              [⟨udb.nextId, yid, d.login, d.display_name, d.default_email,
                now, some now⟩],
            nextId := udb.nextId + 1 })

/-! ## Deletion primitives (referenced by `src/app.py`) -/

/-- Modelled from the spec: `database.delete_paste` is called by the routes
but absent from the sources. §4.3: `delete(key, requesterId) -> bool` —
"Deletes only if a row with `key` exists; ownership check is the caller's
responsibility"; "Returns whether a row was removed". -/
def delete_paste (db : PasteDB) (k : String) (_requester : Nat) :
    Bool × PasteDB :=
  match findPaste db k with
  | none => (false, db)
  | some _ => (true, db.filter (fun r => !(r.key == k)))

/-- Modelled from the spec: `database.delete_pastes` is called by the routes
but absent from the sources. §4.3: `delete_many(keys, requesterId) ->
(deletedCount, requestedCount)` — "Attempts deletion of each key but
restricts actual deletion to rows owned by `requesterId`; rows not owned or
not found are silently skipped and excluded from `deletedCount`". -/
def ownedKeys (db : PasteDB) (keys : List String) (requester : Nat) :
    List String :=
  keys.filter (fun k =>
    match findPaste db k with
    | some r => r.user_id == some requester
    | none => false)

def delete_pastes (db : PasteDB) (keys : List String) (requester : Nat) :
    (Nat × Nat) × PasteDB :=
  (((ownedKeys db keys requester).length, keys.length),
    db.filter (fun r => !((ownedKeys db keys requester).contains r.key)))

/-! ## `src/app.py`: routes -/

/-- The key validation of `view_paste`:
`re.fullmatch(r"[a-zA-Z0-9]{5,12}", paste_key)`. -/
def isValidKeyFormat (s : String) : Bool :=
  5 ≤ s.length && s.length ≤ 12 && s.data.all (fun c => c.isAlphanum)

/-- Outcome of the `view_paste` route: the rendered paste (HTTP 200), an
access denial (403), or a not-found page (404, for a bad key or an absent
row). -/
inductive ViewResult where
  | ok (content : String) (language : Option String) (is_public : Bool)
  | forbidden
  | notFound
  | badKey
deriving DecidableEq, Repr

/-- `app.view_paste`: key-format check, lookup via `get_paste`, then the
private-paste access check against the session user. -/
def view_paste (keyOpt : Option Bytes) (db : PasteDB)
    (sessionUser : Option Nat) (paste_key : String) : ViewResult :=
  if !(isValidKeyFormat paste_key) then .badKey
  else
    match get_paste keyOpt db paste_key with
    | none => .notFound
    | some (content, language, author, isPub) =>
      let accessDenied :=
        if !isPub then
          match sessionUser with
          | none => true
          | some u => !(some u == author)
        else false
      if accessDenied then .forbidden
      else .ok content language isPub

/-- Outcome of the `delete_single_paste` route. -/
inductive DeleteOutcome where
  | forbidden
  | notFound
  | deletedOk
  | deleteFailed
deriving DecidableEq, Repr

/-- `app.delete_single_paste`: requires a session user, fetches the paste,
rejects non-authors, then calls `delete_paste`. -/
def delete_single_paste (keyOpt : Option Bytes) (db : PasteDB)
    (sessionUser : Option Nat) (paste_key : String) :
    DeleteOutcome × PasteDB :=
  match sessionUser with
  | none => (.forbidden, db)
  | some uid =>
    match get_paste keyOpt db paste_key with
    | none => (.notFound, db)
    | some (_, _, author, _) =>
      if !(author == some uid) then (.forbidden, db)
      else
        let res := delete_paste db paste_key uid
        if res.1 then (.deletedOk, res.2) else (.deleteFailed, res.2)

/-- `app.delete_selected_pastes`: requires a session user and a non-empty
selection, then calls `delete_pastes` restricted to the session user. -/
inductive BulkDeleteOutcome where
  | forbidden
  | noneSelected
  | done (deletedCount requestedCount : Nat)
deriving DecidableEq, Repr

def delete_selected_pastes (db : PasteDB) (sessionUser : Option Nat)
    (keys : List String) : BulkDeleteOutcome × PasteDB :=
  match sessionUser with
  | none => (.forbidden, db)
  | some uid =>
    if keys.isEmpty then (.noneSelected, db)
    else
      let res := delete_pastes db keys uid
      (.done res.1.1 res.1.2, res.2)

/-- Outcome of the `create_paste` route. -/
inductive CreateResult where
  | emptyErr
  | tooBigErr
  | created (key : String)
  | createFailed
deriving DecidableEq, Repr

/-- `max_paste_size_bytes = 1 * 1024 * 1024` in `create_paste`. -/
def MAX_PASTE_SIZE : Nat := 1 * 1024 * 1024

/-- `app.create_paste`: rejects missing/blank content, then content whose
UTF-8 encoding exceeds 1 MiB, and only then calls `add_paste`.  The result
is `none` when `add_paste`'s collision recursion exceeds `fuel`. -/
def create_paste (keyOpt : Option Bytes) (nonces : Nat → Bytes)
    (gen : Nat → String) (db : PasteDB) (sessionUser : Option Nat)
    (contentOpt : Option String) (language : Option String)
    (isPubForm : Bool) (now fuel : Nat) :
    Option (CreateResult × PasteDB) :=
  match contentOpt with
  | none => some (.emptyErr, db)
  | some content =>
    if isBlank content then some (.emptyErr, db)
    else if utf8ByteSize content > MAX_PASTE_SIZE then some (.tooBigErr, db)
    else
      match addPasteFuel keyOpt nonces gen content sessionUser language
          isPubForm now db 0 fuel with
      | none => none
      | some (none, db2) => some (.createFailed, db2)
      | some (some k, db2) => some (.created k, db2)

/-! ## Helper lemmas -/

/-- Full characterization of a terminating `add_paste` run: either it
returns `none` leaving the table untouched, or it returns the key generated
at some attempt `j`, which was fresh, and prepends exactly one row whose
content is the value of `contentToSave` at that attempt. -/
theorem addPasteFuel_spec (keyOpt : Option Bytes) (nonces : Nat → Bytes)
    (gen : Nat → String) (content : String) (uid : Option Nat)
    (lang : Option String) (isPub : Bool) (now : Nat) (db : PasteDB) :
    ∀ fuel attempt res,
      addPasteFuel keyOpt nonces gen content uid lang isPub now db attempt fuel
        = some res →
      (res.1 = none ∧ res.2 = db) ∨
      (∃ j cts, res.1 = some (gen (attempt + j)) ∧
        contentToSave keyOpt (nonces (attempt + j)) content isPub = some cts ∧
        findPaste db (gen (attempt + j)) = none ∧
        res.2 = ⟨gen (attempt + j), cts, lang, uid, isPub, now⟩ :: db) := by
  intro fuel
  induction fuel with
  | zero =>
    intro attempt res h
    simp [addPasteFuel] at h
  | succ n ih =>
    intro attempt res h
    rw [addPasteFuel] at h
    by_cases hb : isBlank content
    · rw [if_pos hb] at h
      injection h with h
      exact Or.inl ⟨congrArg Prod.fst h.symm, congrArg Prod.snd h.symm⟩
    · rw [if_neg hb] at h
      cases hcts : contentToSave keyOpt (nonces attempt) content isPub with
      | none =>
        simp only [hcts] at h
        injection h with h
        exact Or.inl ⟨congrArg Prod.fst h.symm, congrArg Prod.snd h.symm⟩
      | some cts =>
        simp only [hcts] at h
        cases hfp : findPaste db (gen attempt) with
        | some r =>
          rw [hfp] at h
          simp only [Option.isSome_some, if_true] at h
          rcases ih (attempt + 1) res h with hl | ⟨j, cts2, h1, h2, h3, h4⟩
          · exact Or.inl hl
          · refine Or.inr ⟨j + 1, cts2, ?_, ?_, ?_, ?_⟩ <;>
              rw [show attempt + (j + 1) = attempt + 1 + j by omega] <;>
              assumption
        | none =>
          rw [hfp] at h
          simp only [Option.isSome_none, Bool.false_eq_true, if_false] at h
          injection h with h
          refine Or.inr ⟨0, cts, ?_, ?_, ?_, ?_⟩
          · rw [Nat.add_zero, ← h]
          · rw [Nat.add_zero]; exact hcts
          · rw [Nat.add_zero]; exact hfp
          · rw [Nat.add_zero, ← h]

/-- If every attempt collides (`gen` always hits an existing key) and
validation/encryption succeed, `add_paste` is still retrying after any
number of attempts: the recursion has no cap. -/
theorem addPasteFuel_collides_forever (keyOpt : Option Bytes)
    (nonces : Nat → Bytes) (gen : Nat → String) (content : String)
    (uid : Option Nat) (lang : Option String) (isPub : Bool) (now : Nat)
    (db : PasteDB) (hb : isBlank content = false)
    (hcoll : ∀ j, (findPaste db (gen j)).isSome)
    (hcts : ∀ j, (contentToSave keyOpt (nonces j) content isPub).isSome) :
    ∀ fuel attempt,
      addPasteFuel keyOpt nonces gen content uid lang isPub now db attempt fuel
        = none := by
  intro fuel
  induction fuel with
  | zero => intro attempt; rfl
  | succ n ih =>
    intro attempt
    rw [addPasteFuel, if_neg (by simp [hb])]
    rcases Option.isSome_iff_exists.1 (hcts attempt) with ⟨cts, hc⟩
    simp only [hc, hcoll attempt, if_true]
    exact ih (attempt + 1)

/-- If the attempts before `j` all collide and attempt `j` draws a fresh
key, `add_paste` succeeds at attempt `j` with that key. -/
theorem addPasteFuel_first_fresh (keyOpt : Option Bytes)
    (nonces : Nat → Bytes) (gen : Nat → String) (content : String)
    (uid : Option Nat) (lang : Option String) (isPub : Bool) (now : Nat)
    (db : PasteDB) (hb : isBlank content = false) :
    ∀ j attempt cts,
      (∀ i, i < j → (findPaste db (gen (attempt + i))).isSome) →
      findPaste db (gen (attempt + j)) = none →
      contentToSave keyOpt (nonces (attempt + j)) content isPub = some cts →
      (∀ i, i < j →
        (contentToSave keyOpt (nonces (attempt + i)) content isPub).isSome) →
      addPasteFuel keyOpt nonces gen content uid lang isPub now db attempt
          (j + 1)
        = some (some (gen (attempt + j)),
            ⟨gen (attempt + j), cts, lang, uid, isPub, now⟩ :: db) := by
  intro j
  induction j with
  | zero =>
    intro attempt cts _ hfresh hcts _
    rw [Nat.add_zero] at hfresh hcts
    rw [addPasteFuel, if_neg (by simp [hb])]
    simp only [hcts, hfresh, Option.isSome_none, Bool.false_eq_true, if_false,
      Nat.add_zero]
  | succ m ih =>
    intro attempt cts hcoll hfresh hcts hctsAll
    rw [addPasteFuel, if_neg (by simp [hb])]
    rcases Option.isSome_iff_exists.1 (hctsAll 0 (Nat.succ_pos m)) with ⟨c0, hc0⟩
    rw [Nat.add_zero] at hc0
    simp only [hc0]
    have hcol0 := hcoll 0 (Nat.succ_pos m)
    rw [Nat.add_zero] at hcol0
    simp only [hcol0, if_true]
    have h1 : ∀ i, i < m → (findPaste db (gen (attempt + 1 + i))).isSome := by
      intro i hi
      rw [show attempt + 1 + i = attempt + (i + 1) by omega]
      exact hcoll (i + 1) (by omega)
    have h2 : findPaste db (gen (attempt + 1 + m)) = none := by
      rw [show attempt + 1 + m = attempt + (m + 1) by omega]; exact hfresh
    have h3 : contentToSave keyOpt (nonces (attempt + 1 + m)) content isPub
        = some cts := by
      rw [show attempt + 1 + m = attempt + (m + 1) by omega]; exact hcts
    have h4 : ∀ i, i < m →
        (contentToSave keyOpt (nonces (attempt + 1 + i)) content isPub).isSome := by
      intro i hi
      rw [show attempt + 1 + i = attempt + (i + 1) by omega]
      exact hctsAll (i + 1) (by omega)
    have := ih (attempt + 1) cts h1 h2 h3 h4
    rw [this]
    rw [show attempt + 1 + m = attempt + (m + 1) by omega]

/-- Looking up a found row through `get_paste`. -/
theorem get_paste_found (keyOpt : Option Bytes) (db : PasteDB) (k : String)
    (row : PasteRow) (hke : k.isEmpty = false)
    (hf : findPaste db k = some row) :
    get_paste keyOpt db k
      = some (pasteContentOf keyOpt row, row.language, row.user_id,
          row.is_public) := by
  rw [get_paste, if_neg (by simp [hke])]
  rw [hf]

/-! ## Claims -/

/-- C1: for every valid non-empty content of at most 1 MiB of UTF-8 bytes
and both visibilities, a successful `add_paste` followed by `get_paste` on
the returned key yields the original content unchanged — through plain
storage for public pastes and through encrypt/decrypt for private ones. -/
theorem C1_create_get_roundtrip (keyOpt : Option Bytes) (nonces : Nat → Bytes)
    (gen : Nat → String) (content : String) (uid : Option Nat)
    (lang : Option String) (isPub : Bool) (now fuel : Nat) (db : PasteDB)
    (k : String) (db2 : PasteDB)
    (hnb : isBlank content = false)
    (hsz : utf8ByteSize content ≤ MAX_PASTE_SIZE)
    (hn : ∀ i, (nonces i).length = 12)
    (hke : k.isEmpty = false)
    (hrun : addPasteFuel keyOpt nonces gen content uid lang isPub now db 0 fuel
      = some (some k, db2)) :
    get_paste keyOpt db2 k = some (content, lang, uid, isPub) := by
  rcases addPasteFuel_spec keyOpt nonces gen content uid lang isPub now db
      fuel 0 _ hrun with ⟨h1, _⟩ | ⟨j, cts, h1, h2, _, h4⟩
  · simp at h1
  · simp only at h1 h4
    injection h1 with h1
    rw [← h1] at h4
    subst h4
    have hfind : findPaste (⟨k, cts, lang, uid, isPub, now⟩ :: db) k
        = some ⟨k, cts, lang, uid, isPub, now⟩ := by
      unfold findPaste
      exact List.find?_cons_of_pos _ (by simp)
    rw [get_paste_found keyOpt _ k _ hke hfind]
    cases isPub with
    | true =>
      simp only [contentToSave, if_pos rfl] at h2
      injection h2 with h2
      subst h2
      rfl
    | false =>
      simp only [contentToSave, Bool.false_eq_true, if_false] at h2
      rcases Option.map_eq_some'.1 h2 with ⟨blob, henc, hcts⟩
      subst hcts
      cases keyOpt with
      | none => simp [encrypt_content] at henc
      | some key =>
        have hdec := decrypt_encrypt_content key (nonces (0 + j)) content
          (hn (0 + j)) blob henc
        simp [pasteContentOf, hdec]

/-- Witness inputs for the claim theorems: a 32-byte key, a 12-byte nonce
stream, a constant key generator, and a tiny database. -/
def wKey : Bytes := List.replicate 32 5
def wNonces : Nat → Bytes := fun _ => List.range 12
def wGen : Nat → String := fun _ => "aaaaa222"
def wRow1 : PasteRow :=
  ⟨"aaaaa222",
    .blob ((encrypt_content (some wKey) (wNonces 0) "hello").getD []),
    none, some 7, false, 0⟩

theorem C1_create_get_roundtrip_witness :
    get_paste (some wKey) [wRow1] "aaaaa222" = some ("hello", none, some 7, false) :=
  C1_create_get_roundtrip (some wKey) wNonces wGen "hello" (some 7) none false
    0 1 [] "aaaaa222" [wRow1] (by decide) (by decide)
    (fun i => by simp [wNonces]) (by decide) (by decide)

/-- C2: a private `add_paste` only ever persists the output of
`encrypt_content` — every row of the resulting table is either preexisting
or carries an encrypted blob, never the plaintext; and when encryption
fails the whole create fails with the table unchanged. -/
theorem C2_private_never_plaintext (keyOpt : Option Bytes)
    (nonces : Nat → Bytes) (gen : Nat → String) (content : String)
    (uid : Option Nat) (lang : Option String) (now : Nat) (db : PasteDB) :
    (∀ fuel res,
      addPasteFuel keyOpt nonces gen content uid lang false now db 0 fuel
        = some res →
      ∀ r, r ∈ res.2 → r ∈ db ∨ ∃ j blob,
        encrypt_content keyOpt (nonces j) content = some blob ∧
        r.content = .blob blob ∧ r.content ≠ .plain content) ∧
    (∀ attempt fuel,
      encrypt_content keyOpt (nonces attempt) content = none →
      addPasteFuel keyOpt nonces gen content uid lang false now db attempt
          (fuel + 1)
        = some (none, db)) := by
  constructor
  · intro fuel res hres r hr
    rcases addPasteFuel_spec keyOpt nonces gen content uid lang false now db
        fuel 0 res hres with ⟨_, h2⟩ | ⟨j, cts, _, h2, _, h4⟩
    · exact Or.inl (h2 ▸ hr)
    · rw [h4] at hr
      rcases List.mem_cons.1 hr with hr | hr

      · simp only [contentToSave, Bool.false_eq_true, if_false] at h2
        rcases Option.map_eq_some'.1 h2 with ⟨blob, henc, hcts⟩
        refine Or.inr ⟨0 + j, blob, henc, ?_, ?_⟩
        · rw [hr, ← hcts]
        · rw [hr, ← hcts]
          simp
      · exact Or.inl hr
  · intro attempt fuel henc
    rw [addPasteFuel]
    by_cases hb : isBlank content
    · rw [if_pos hb]
    · rw [if_neg hb]
      simp only [contentToSave, Bool.false_eq_true, if_false, henc,
        Option.map_none']

theorem C2_private_never_plaintext_witness :
    (wRow1 ∈ ([] : PasteDB) ∨ ∃ j blob,
      encrypt_content (some wKey) (wNonces j) "hello" = some blob ∧
      wRow1.content = .blob blob ∧ wRow1.content ≠ .plain "hello") ∧
    addPasteFuel none wNonces wGen "hello" (some 7) none false 0 [] 0 1
      = some (none, []) :=
  ⟨(C2_private_never_plaintext (some wKey) wNonces wGen "hello"
      (some 7) none 0 []).1 1 (some "aaaaa222", [wRow1]) (by decide) wRow1
      (by decide),
   (C2_private_never_plaintext none wNonces wGen "hello" (some 7)
      none 0 []).2 0 0 (by decide)⟩

/-- A key passing the route's format check is in particular non-empty. -/
theorem validKeyFormat_not_empty (k : String)
    (hkey : isValidKeyFormat k = true) : k.isEmpty = false := by
  by_contra h
  have he : k.isEmpty = true := by
    cases hk : k.isEmpty
    · exact absurd hk h
    · rfl
  have : k = "" := (String.isEmpty_iff k).1 he
  subst this
  simp [isValidKeyFormat, String.length] at hkey

/-- C3: access control by ownership.  For a stored paste and any requester:
a private paste is unreadable by a requester other than the owner
(anonymous included); a public paste is readable by anyone; deletion is
denied to anyone other than the owner; a successful read of a private
paste or a successful deletion implies the requester is the owner. -/
theorem C3_access_control (keyOpt : Option Bytes) (db : PasteDB)
    (k : String) (row : PasteRow) (B : Option Nat)
    (hkey : isValidKeyFormat k = true)
    (hf : findPaste db k = some row) :
    (row.is_public = false → (B = none ∨ B ≠ row.user_id) →
      view_paste keyOpt db B k = .forbidden) ∧
    (row.is_public = true →
      view_paste keyOpt db B k
        = .ok (pasteContentOf keyOpt row) row.language true) ∧
    ((B = none ∨ B ≠ row.user_id) →
      delete_single_paste keyOpt db B k = (.forbidden, db)) ∧
    (∀ db2, delete_single_paste keyOpt db B k = (.deletedOk, db2) →
      B = row.user_id ∧ B ≠ none) ∧
    (∀ c l p, view_paste keyOpt db B k = .ok c l p →
      row.is_public = true ∨ B = row.user_id) := by
  have hke := validKeyFormat_not_empty k hkey
  have hget := get_paste_found keyOpt db k row hke hf
  refine ⟨?_, ?_, ?_, ?_, ?_⟩
  · intro hpriv hB
    rcases hB with hB | hB
    · subst hB
      simp [view_paste, hkey, hget, hpriv]
    · cases B with
      | none => simp [view_paste, hkey, hget, hpriv]
      | some u =>
        have hne : (some u == row.user_id) = false := by
          simp only [beq_eq_false_iff_ne]
          exact fun hcc => hB (by rw [hcc])
        simp [view_paste, hkey, hget, hpriv, hne]
  · intro hpub
    simp [view_paste, hkey, hget, hpub]
  · intro hB
    cases B with
    | none => rfl
    | some u =>
      have hne : (row.user_id == some u) = false := by
        rcases hB with hB | hB
        · exact absurd hB (by simp)
        · simp only [beq_eq_false_iff_ne]
          exact fun hcc => hB (by rw [hcc])
      simp [delete_single_paste, hget, hne]
  · intro db2 hdel
    cases B with
    | none => simp [delete_single_paste] at hdel
    | some u =>
      by_cases hau : row.user_id = some u
      · exact ⟨hau.symm, by simp⟩
      · have hne : (row.user_id == some u) = false := by
          simp only [beq_eq_false_iff_ne]
          exact hau
        simp [delete_single_paste, hget, hne] at hdel
  · intro c l p hok
    by_cases hpub : row.is_public = true
    · exact Or.inl hpub
    · have hpriv : row.is_public = false := by
        cases hp : row.is_public
        · rfl
        · exact absurd hp hpub
      cases B with
      | none => simp [view_paste, hkey, hget, hpriv] at hok
      | some u =>
        by_cases heq : some u = row.user_id
        · exact Or.inr heq
        · have hne : (some u == row.user_id) = false := by
            simp only [beq_eq_false_iff_ne]
            exact heq
          simp [view_paste, hkey, hget, hpriv, hne] at hok

def wRowPub : PasteRow := ⟨"bbbbb333", .plain "world", some "python", some 7, true, 1⟩

theorem C3_access_control_witness :
    view_paste (some wKey) [wRow1, wRowPub] (some 8) "aaaaa222" = .forbidden ∧
    view_paste (some wKey) [wRow1, wRowPub] none "bbbbb333"
      = .ok "world" (some "python") true ∧
    delete_single_paste (some wKey) [wRow1, wRowPub] (some 8) "aaaaa222"
      = (.forbidden, [wRow1, wRowPub]) :=
  ⟨(C3_access_control (some wKey) [wRow1, wRowPub] "aaaaa222" wRow1 (some 8)
      (by decide) (by decide)).1 (by decide) (Or.inr (by decide)),
   (C3_access_control (some wKey) [wRow1, wRowPub] "bbbbb333" wRowPub none
      (by decide) (by decide)).2.1 (by decide),
   (C3_access_control (some wKey) [wRow1, wRowPub] "aaaaa222" wRow1 (some 8)
      (by decide) (by decide)).2.2.1 (Or.inr (by decide))⟩

/-- A one-row table whose only key is the one `wGen` always generates, and a
generator that collides on attempt 0 and is fresh from attempt 1 on. -/
def wCollDB : PasteDB := [⟨"aaaaa222", .plain "x", none, none, true, 0⟩]
def wGen2 : Nat → String := fun n => if n = 0 then "aaaaa222" else "ccccc444"

/-- C4 counterexample: the claim says retries are capped (e.g. at 5
attempts) so that `add_paste` terminates even if every generated key
collides.  On a table containing the only key the generator ever produces,
the recursion is still running after 10 attempts: no cap exists in the
code. -/
theorem C4_retry_cap_counterexample :
    addPasteFuel none wNonces wGen "hello" none none true 0 wCollDB 0 10
      = none := by decide

/-- C4 (amended): on a key collision `add_paste` retries with a newly
generated key, but the retry count is not capped: if every attempt
collides the recursion never returns, and it succeeds exactly when some
attempt draws a fresh key (returning that key and inserting one row). -/
theorem C4_retry_uncapped (keyOpt : Option Bytes) (nonces : Nat → Bytes)
    (gen : Nat → String) (content : String) (uid : Option Nat)
    (lang : Option String) (isPub : Bool) (now : Nat) (db : PasteDB)
    (hb : isBlank content = false) :
    ((∀ j, (findPaste db (gen j)).isSome) →
      (∀ j, (contentToSave keyOpt (nonces j) content isPub).isSome) →
      ∀ fuel attempt,
        addPasteFuel keyOpt nonces gen content uid lang isPub now db attempt
          fuel = none) ∧
    (∀ j cts,
      (∀ i, i < j → (findPaste db (gen i)).isSome) →
      findPaste db (gen j) = none →
      contentToSave keyOpt (nonces j) content isPub = some cts →
      (∀ i, i < j → (contentToSave keyOpt (nonces i) content isPub).isSome) →
      addPasteFuel keyOpt nonces gen content uid lang isPub now db 0 (j + 1)
        = some (some (gen j), ⟨gen j, cts, lang, uid, isPub, now⟩ :: db)) := by
  constructor
  · intro hcoll hcts fuel attempt
    exact addPasteFuel_collides_forever keyOpt nonces gen content uid lang
      isPub now db hb hcoll hcts fuel attempt
  · intro j cts hcoll hfresh hcts hctsAll
    have := addPasteFuel_first_fresh keyOpt nonces gen content uid lang isPub
      now db hb j 0 cts
      (by intro i hi; rw [Nat.zero_add]; exact hcoll i hi)
      (by rw [Nat.zero_add]; exact hfresh)
      (by rw [Nat.zero_add]; exact hcts)
      (by intro i hi; rw [Nat.zero_add]; exact hctsAll i hi)
    rw [this, Nat.zero_add]

theorem C4_retry_uncapped_witness :
    addPasteFuel none wNonces wGen2 "hello" none none true 0 wCollDB 0 2
      = some (some "ccccc444",
          ⟨"ccccc444", .plain "hello", none, none, true, 0⟩ :: wCollDB) :=
  (C4_retry_uncapped none wNonces wGen2 "hello" none none true 0 wCollDB
    (by decide)).2 1 (.plain "hello")
    (by intro i hi
        interval_cases i
        · decide)
    (by decide) (by decide)
    (by intro i hi
        interval_cases i
        · decide)

/-- In a table with distinct keys (the PRIMARY KEY invariant), looking a
member row up by its key finds exactly that row. -/
theorem findPaste_mem (db : PasteDB)
    (hnd : db.Pairwise (fun a b => a.key ≠ b.key)) (r : PasteRow)
    (hr : r ∈ db) : findPaste db r.key = some r := by
  induction db with
  | nil => simp at hr
  | cons x xs ih =>
    rcases List.mem_cons.1 hr with h | h
    · subst h
      unfold findPaste
      exact List.find?_cons_of_pos _ (by simp)
    · have hx : x.key ≠ r.key := (List.pairwise_cons.1 hnd).1 r h
      unfold findPaste
      rw [List.find?_cons_of_neg _ (by simp [hx])]
      exact ih (List.pairwise_cons.1 hnd).2 h

/-- C5: `delete_pastes` reports the requested count as the number of
submitted keys, never deletes a row not owned by the requester (rows not
owned or not found are silently skipped), and in the claim's scenario —
`[k1, k2]` with `k1` owned by the requester and `k2` by someone else — it
deletes exactly `k1` and reports `(1, 2)`. -/
theorem C5_delete_many (db : PasteDB)
    (hnd : db.Pairwise (fun a b => a.key ≠ b.key)) :
    (∀ keys uid, (delete_pastes db keys uid).1.2 = keys.length) ∧
    (∀ keys uid r, r ∈ db → r.user_id ≠ some uid →
      r ∈ (delete_pastes db keys uid).2) ∧
    (∀ k1 k2 a r1 r2,
      findPaste db k1 = some r1 → r1.user_id = some a →
      findPaste db k2 = some r2 → r2.user_id ≠ some a →
      delete_pastes db [k1, k2] a
        = ((1, 2), db.filter (fun r => !(r.key == k1)))) := by
  refine ⟨fun keys uid => rfl, ?_, ?_⟩
  · intro keys uid r hr hro
    unfold delete_pastes
    refine List.mem_filter.2 ⟨hr, ?_⟩
    have hc : (ownedKeys db keys uid).contains r.key = false := by
      cases h : (ownedKeys db keys uid).contains r.key
      · rfl
      · exfalso
        have hmem : r.key ∈ ownedKeys db keys uid := List.elem_iff.1 h
        have hpred := (List.mem_filter.1 hmem).2
        rw [findPaste_mem db hnd r hr] at hpred
        simp only [beq_iff_eq] at hpred
        exact hro hpred
    rw [hc]
    rfl
  · intro k1 k2 a r1 r2 hf1 hr1 hf2 hr2
    have h1 : (match findPaste db k1 with
        | some r => r.user_id == some a
        | none => false) = true := by
      rw [hf1]; simp [hr1]
    have h2 : (match findPaste db k2 with
        | some r => r.user_id == some a
        | none => false) = false := by
      rw [hf2]
      simp only [beq_eq_false_iff_ne]
      exact hr2
    have howned : ownedKeys db [k1, k2] a = [k1] := by
      unfold ownedKeys
      rw [List.filter_cons, List.filter_cons, List.filter_nil]
      simp only [h1, h2, if_true]
      simp
    unfold delete_pastes
    rw [howned]
    refine congrArg (Prod.mk (1, 2)) ?_
    apply List.filter_congr
    intro r _
    cases h : r.key == k1 <;>
      simp_all [List.contains, List.elem_cons, h]

def wRowOther : PasteRow := ⟨"ddddd555", .plain "z", none, some 9, true, 2⟩

theorem C5_delete_many_witness :
    delete_pastes [wRow1, wRowOther] ["aaaaa222", "ddddd555"] 7
      = ((1, 2),
        [wRow1, wRowOther].filter (fun r => !(r.key == "aaaaa222"))) :=
  (C5_delete_many [wRow1, wRowOther] (by simp [wRow1, wRowOther])).2.2
    "aaaaa222" "ddddd555" 7 wRow1 wRowOther (by decide) (by decide)
    (by decide) (by decide)

/-- C6: the `create` entry point rejects empty/whitespace-only content, and
content whose UTF-8 encoding exceeds 1 MiB, before any persistence
attempt: the result is a validation failure with the table unchanged and
no key returned, even with zero fuel for the storage step (`add_paste` is
never reached). -/
theorem C6_validation_first (keyOpt : Option Bytes) (nonces : Nat → Bytes)
    (gen : Nat → String) (db : PasteDB) (sessionUser : Option Nat)
    (language : Option String) (isPubForm : Bool) (now : Nat) :
    (∀ fuel contentOpt,
      (contentOpt = none ∨ ∃ c, contentOpt = some c ∧ isBlank c = true) →
      create_paste keyOpt nonces gen db sessionUser contentOpt language
        isPubForm now fuel = some (.emptyErr, db)) ∧
    (∀ fuel c, isBlank c = false → utf8ByteSize c > MAX_PASTE_SIZE →
      create_paste keyOpt nonces gen db sessionUser (some c) language
        isPubForm now fuel = some (.tooBigErr, db)) := by
  constructor
  · intro fuel contentOpt hc
    rcases hc with hc | ⟨c, hc, hb⟩
    · subst hc; rfl
    · subst hc
      simp only [create_paste]
      rw [if_pos hb]
  · intro fuel c hb hsz
    simp only [create_paste]
    rw [if_neg (by simp [hb]), if_pos hsz]

/-- UTF-8 size of a string of `n` copies of one character. -/
theorem utf8ByteSize_replicate (n : Nat) (c : Char) :
    utf8ByteSize (String.mk (List.replicate n c)) = n * utf8CharSize c := by
  simp [utf8ByteSize, List.map_replicate, List.sum_replicate, smul_eq_mul]

/-- A nonempty run of a non-whitespace character is not blank. -/
theorem isBlank_replicate_a (n : Nat) :
    isBlank (String.mk (List.replicate (n + 1) 'a')) = false := by
  cases h : isBlank (String.mk (List.replicate (n + 1) 'a'))
  · rfl
  · exfalso
    unfold isBlank at h
    rw [List.all_eq_true] at h
    have := h 'a' (List.mem_replicate.2 ⟨Nat.succ_ne_zero n, rfl⟩)
    exact absurd this (by decide)

def wBigContent : String := String.mk (List.replicate (MAX_PASTE_SIZE + 1) 'a')

theorem C6_validation_first_witness :
    create_paste none wNonces wGen [] none (some "   ") none true 0 0
      = some (.emptyErr, []) ∧
    create_paste none wNonces wGen [] none (some wBigContent) none true 0 0
      = some (.tooBigErr, []) :=
  ⟨(C6_validation_first none wNonces wGen [] none none true 0).1 0
      (some "   ") (Or.inr ⟨"   ", rfl, by decide⟩),
   (C6_validation_first none wNonces wGen [] none none true 0).2 0
      wBigContent (isBlank_replicate_a MAX_PASTE_SIZE)
      (by rw [wBigContent, utf8ByteSize_replicate]
          decide)⟩

/-- The append-accumulator loop of `get_user_pastes` is a `map`. -/
theorem foldl_append_eq_map (f : PasteRow → PastePreview) :
    ∀ (l : List PasteRow) (acc : List PastePreview),
      l.foldl (fun acc row => acc ++ [f row]) acc = acc ++ l.map f := by
  intro l
  induction l with
  | nil => intro acc; simp
  | cons x xs ih =>
    intro acc
    simp only [List.foldl_cons, List.map_cons]
    rw [ih (acc ++ [f x])]
    simp

/-- C7: a private paste whose blob fails to decrypt is returned by
`get_paste` with the sentinel "decryption failed" marker instead of an
exception, and in `get_user_pastes` the listing is a per-row map — a
failing row degrades only its own preview (to the marker) while a
decryptable row still yields its true prefix. -/
theorem C7_decrypt_failure_degrades (keyOpt : Option Bytes) (db : PasteDB) :
    (∀ k row b, k.isEmpty = false → findPaste db k = some row →
      row.is_public = false → row.content = .blob b →
      decrypt_content keyOpt b = none →
      get_paste keyOpt db k
        = some (decryptErrorMarker, row.language, row.user_id, false)) ∧
    (∀ uid limit plen, uid ≠ 0 →
      get_user_pastes keyOpt db uid limit plen
        = (queryUserPastes db uid limit).map (previewRow keyOpt plen)) ∧
    (∀ plen row b, row.is_public = false → row.content = .blob b →
      decrypt_content keyOpt b = none →
      (previewRow keyOpt plen row).content = decryptErrorMarker) ∧
    (∀ plen row b s, row.is_public = false → row.content = .blob b →
      decrypt_content keyOpt b = some s →
      (previewRow keyOpt plen row).content = s.take plen) := by
  refine ⟨?_, ?_, ?_, ?_⟩
  · intro k row b hke hf hpriv hb hdec
    rw [get_paste_found keyOpt db k row hke hf]
    simp [pasteContentOf, hpriv, hb, hdec]
  · intro uid limit plen huid
    unfold get_user_pastes
    rw [if_neg huid]
    exact foldl_append_eq_map (previewRow keyOpt plen)
      (queryUserPastes db uid limit) []
  · intro plen row b hpriv hb hdec
    simp [previewRow, hpriv, hb, hdec]
  · intro plen row b s hpriv hb hdec
    simp [previewRow, hpriv, hb, hdec]

def wRowBad : PasteRow := ⟨"eeeee666", .blob [], none, some 7, false, 3⟩

theorem C7_decrypt_failure_degrades_witness :
    get_paste (some wKey) [wRowBad, wRow1] "eeeee666"
      = some (decryptErrorMarker, none, some 7, false) ∧
    get_user_pastes (some wKey) [wRowBad, wRow1] 7 50 100
      = (queryUserPastes [wRowBad, wRow1] 7 50).map
          (previewRow (some wKey) 100) ∧
    (previewRow (some wKey) 100 wRowBad).content = decryptErrorMarker ∧
    (previewRow (some wKey) 100 wRow1).content = "hello".take 100 :=
  ⟨(C7_decrypt_failure_degrades (some wKey) [wRowBad, wRow1]).1 "eeeee666"
      wRowBad [] (by decide) (by decide) rfl rfl (by decide),
   (C7_decrypt_failure_degrades (some wKey) [wRowBad, wRow1]).2.1 7 50 100
      (by decide),
   (C7_decrypt_failure_degrades (some wKey) [wRowBad, wRow1]).2.2.1 100
      wRowBad [] rfl rfl (by decide),
   (C7_decrypt_failure_degrades (some wKey) [wRowBad, wRow1]).2.2.2 100
      wRow1 ((encrypt_content (some wKey) (wNonces 0) "hello").getD [])
      "hello" rfl rfl (by decide)⟩

/-- C8: calling `get_or_create_user` twice with the same external id
returns the same local id both times, updates `last_login` on the second
call, and does not insert a second row for that external id (row count
unchanged, exactly one row with that `yandex_id`). -/
theorem C8_upsert_same_id (udb : UsersDB) (t1 t2 : Nat) (d : YandexData)
    (yid : String) (hid : d.id = some yid) (hne : yid.isEmpty = false)
    (habs : ∀ r ∈ udb.rows, r.yandex_id ≠ yid) :
    ∃ uid udb1 udb2,
      get_or_create_user udb t1 d = (some uid, udb1) ∧
      get_or_create_user udb1 t2 d = (some uid, udb2) ∧
      udb2.rows.length = udb1.rows.length ∧
      (udb2.rows.filter (fun r => r.yandex_id == yid)).length = 1 ∧
      ∃ r, r ∈ udb2.rows ∧ r.yandex_id = yid ∧ r.last_login = some t2 := by
  have hfind1 : udb.rows.find? (fun r => r.yandex_id == yid) = none := by
    rw [List.find?_eq_none]
    intro r hr
    simp [habs r hr]
  set nr : UserRow :=
    ⟨udb.nextId, yid, d.login, d.display_name, d.default_email, t1, some t1⟩
    with hnr
  set g : UserRow → UserRow := fun row =>
    if row.id == nr.id then { row with last_login := some t2 } else row
    with hg
  have hgy : ∀ row : UserRow, (g row).yandex_id = row.yandex_id := by
    intro row
    by_cases h : row.id = nr.id <;> simp [hg, h]
  refine ⟨udb.nextId, ⟨udb.rows ++ [nr], udb.nextId + 1⟩,
    ⟨(udb.rows ++ [nr]).map g, udb.nextId + 1⟩, ?_, ?_, ?_, ?_, ?_⟩
  · unfold get_or_create_user
    simp only [hid]
    rw [if_neg (by simp [hne]), hfind1]
  · unfold get_or_create_user
    simp only [hid]
    rw [if_neg (by simp [hne])]
    have hfind2 : (udb.rows ++ [nr]).find? (fun r => r.yandex_id == yid)
        = some nr := by
      rw [List.find?_append, hfind1, Option.none_or]
      exact List.find?_cons_of_pos _ (by simp [hnr])
    rw [hfind2]
  · simp
  · rw [List.filter_map, List.length_map]
    have hpg : ∀ r ∈ udb.rows ++ [nr],
        ((fun r : UserRow => r.yandex_id == yid) ∘ g) r
          = (r.yandex_id == yid) := by
      intro r _
      simp [Function.comp, hgy]
    rw [List.filter_congr hpg, List.filter_append]
    have hefl : udb.rows.filter (fun r => r.yandex_id == yid) = [] := by
      rw [List.filter_eq_nil_iff]
      intro r hr
      simp [habs r hr]
    rw [hefl]
    simp [hnr]
  · refine ⟨g nr, List.mem_map.2 ⟨nr, List.mem_append.2 (Or.inr (by simp)),
      rfl⟩, ?_, ?_⟩
    · rw [hgy nr, hnr]
    · simp [hg]

def wYandexData : YandexData := ⟨some "1111", some "user1", none, none⟩

theorem C8_upsert_same_id_witness :
    ∃ uid udb1 udb2,
      get_or_create_user ⟨[], 1⟩ 10 wYandexData = (some uid, udb1) ∧
      get_or_create_user udb1 20 wYandexData = (some uid, udb2) ∧
      udb2.rows.length = udb1.rows.length ∧
      (udb2.rows.filter (fun r => r.yandex_id == "1111")).length = 1 ∧
      ∃ r, r ∈ udb2.rows ∧ r.yandex_id = "1111" ∧ r.last_login = some 20 :=
  C8_upsert_same_id ⟨[], 1⟩ 10 20 wYandexData "1111" rfl (by decide)
    (by intro r hr; simp at hr)

/-- C9: for a stored public paste, `get_paste` never touches the crypto
helper — its result is independent of the encryption key (absent or
otherwise) — and returns the stored text unchanged. -/
theorem C9_public_reads_without_crypto (keyOpt : Option Bytes)
    (db : PasteDB) (k : String) (row : PasteRow) (c : String)
    (hke : k.isEmpty = false) (hf : findPaste db k = some row)
    (hpub : row.is_public = true) :
    get_paste keyOpt db k = get_paste none db k ∧
    (row.content = .plain c →
      get_paste keyOpt db k = some (c, row.language, row.user_id, true)) := by
  have h1 := get_paste_found keyOpt db k row hke hf
  have h2 := get_paste_found none db k row hke hf
  constructor
  · rw [h1, h2]
    simp [pasteContentOf, hpub]
  · intro hc
    rw [h1]
    simp [pasteContentOf, hpub, hc]

theorem C9_public_reads_without_crypto_witness :
    get_paste none [wRowPub] "bbbbb333"
      = some ("world", some "python", some 7, true) :=
  (C9_public_reads_without_crypto none [wRowPub] "bbbbb333" wRowPub "world"
    (by decide) (by decide) rfl).2 rfl

/-- C10: `get_or_create_user` on a profile whose external id is missing or
empty returns `none` and leaves the user table unchanged. -/
theorem C10_missing_external_id (udb : UsersDB) (now : Nat) (d : YandexData)
    (hid : d.id = none ∨ d.id = some "") :
    get_or_create_user udb now d = (none, udb) := by
  rcases hid with h | h
  · unfold get_or_create_user
    simp only [h]
  · unfold get_or_create_user
    simp only [h]
    rw [if_pos (by decide)]

theorem C10_missing_external_id_witness :
    get_or_create_user ⟨[], 1⟩ 5 ⟨none, none, none, none⟩
      = (none, ⟨[], 1⟩) ∧
    get_or_create_user ⟨[], 1⟩ 5 ⟨some "", some "u", none, none⟩
      = (none, ⟨[], 1⟩) :=
  ⟨C10_missing_external_id ⟨[], 1⟩ 5 ⟨none, none, none, none⟩ (Or.inl rfl),
   C10_missing_external_id ⟨[], 1⟩ 5 ⟨some "", some "u", none, none⟩
     (Or.inr rfl)⟩

end Pastebin
